import Mathlib

/-!
# Verification of the py_load_uniprot core (transformer, loader, pipeline driver)

A shallow embedding of the code in `src/py_load_uniprot/transformer.py`,
`src/py_load_uniprot/db_manager.py` and `src/py_load_uniprot/core.py`,
together with theorems settling the specification claims about it.

Conventions of the embedding:
* Python strings are `String`, Python `None`-able values are `Option _`,
  Python `int` is `Int`.
* A raised Python exception is the `error` branch of `Except PyErr _`.
* XML elements (lxml `_Element`) are the inductive `Xml`: a tag, an
  attribute list, optional text, and a child list, in document order.
* Python `dict`/`set` values that the code only reads through membership
  and iteration are association lists / lists with explicit membership.
-/

/-- A raised Python exception: the constructor records the Python class. -/
inductive PyErr where
  | valueError (msg : String)
  | dbError (msg : String)
deriving DecidableEq, Repr

/-- Python truthiness of an optional string (`None` and `""` are falsy). -/
def pyTruthy : Option String → Bool
  | none => false
  | some s => s ≠ ""

/-- ASCII whitespace stripped by Python `int()`. -/
def isPySpace (c : Char) : Bool :=
  c = ' ' ∨ c = '\t' ∨ c = '\n' ∨ c = '\r' ∨ c = '\x0b' ∨ c = '\x0c'

/-- Python `int(s)`: strip surrounding whitespace, optional sign, decimal
digits.  Returns `none` where CPython raises `ValueError`.  (Underscore
digit grouping is not modelled; no claim depends on which strings parse.)
Implemented over the character list so that it computes definitionally. -/
def pyInt? (s : String) : Option Int :=
  let t := ((s.toList.dropWhile isPySpace).reverse.dropWhile isPySpace).reverse
  let signedCore : Bool × List Char :=
    match t with
    | '-' :: rest => (true, rest)
    | '+' :: rest => (false, rest)
    | _ => (false, t)
  let core := signedCore.2
  if core.length > 0 ∧ core.all (·.isDigit) then
    let n : Nat := core.foldl (fun acc c => 10 * acc + (c.toNat - '0'.toNat)) 0
    some (if signedCore.1 then -(n : Int) else (n : Int))
  else
    none

mutual
/-- An lxml element: tag (namespace-qualified), attributes, text, children. -/
inductive Xml where
  | elem (tag : String) (attrib : List (String × String))
         (text : Option String) (children : XmlList)

/-- The child list of an element; a dedicated type so that every recursion
over the XML tree is structural (and therefore computes definitionally). -/
inductive XmlList where
  | nil
  | cons (head : Xml) (tail : XmlList)
end

/-- View the child list as an ordinary list. -/
def XmlList.toList : XmlList → List Xml
  | .nil => []
  | .cons c rest => c :: rest.toList

/-- Build a child list from an ordinary list (used to write fixtures). -/
def XmlList.ofList : List Xml → XmlList
  | [] => .nil
  | c :: rest => .cons c (XmlList.ofList rest)

/-- `UNIPROT_NAMESPACE` from transformer.py. -/
def UNIPROT_NAMESPACE : String := "\x7bhttp://uniprot.org/uniprot\x7d"

/-- `_get_tag`: prepend the UniProt XML namespace to a tag name. -/
def getTag (tagName : String) : String := UNIPROT_NAMESPACE ++ tagName

def Xml.tag : Xml → String
  | .elem t _ _ _ => t

def Xml.attrib : Xml → List (String × String)
  | .elem _ a _ _ => a

def Xml.text : Xml → Option String
  | .elem _ _ x _ => x

def Xml.children : Xml → List Xml
  | .elem _ _ _ cs => cs.toList

/-- lxml `el.get(key)`: attribute lookup, `None` when absent. -/
def Xml.get (el : Xml) (key : String) : Option String :=
  (el.attrib.find? (fun p => p.1 = key)).map Prod.snd

/-- `el.findall(tag)`: the direct children with the given tag, in order. -/
def Xml.findall (el : Xml) (tag : String) : List Xml :=
  el.children.filter (fun c => c.tag = tag)

/-- `el.find(tag)`: the first direct child with the given tag. -/
def Xml.find (el : Xml) (tag : String) : Option Xml :=
  el.children.find? (fun c => c.tag = tag)

/-- `el.findtext(tag)`: text of the first matching child; `None` when no
child matches, `""` when the matching child has no text. -/
def Xml.findtext (el : Xml) (tag : String) : Option String :=
  (el.find tag).map (fun c => c.text.getD "")

mutual
/-- The element together with all of its descendants, in document order. -/
def Xml.subtrees : Xml → List Xml
  | .elem t a x cs => .elem t a x cs :: XmlList.subtreesAll cs

/-- The subtrees of every element of a child list, in document order. -/
def XmlList.subtreesAll : XmlList → List Xml
  | .nil => []
  | .cons c rest => Xml.subtrees c ++ XmlList.subtreesAll rest
end

/-- All strict descendants in document order: lxml `el.findall(".//tag")`
searches these. -/
def Xml.descendants : Xml → List Xml
  | .elem _ _ _ cs => XmlList.subtreesAll cs

/-- `el.findall(".//" + tag)` restricted by an attribute predicate is used
with `dbReference[@type=...]`; plain descendant search uses `fun _ => true`. -/
def Xml.findallDesc (el : Xml) (tag : String) : List Xml :=
  el.descendants.filter (fun c => c.tag = tag)

/-- `el.find(".//" + tag + "[@type=v]")` style search: first descendant with
the tag whose `type` attribute equals `v`. -/
def Xml.findallDescAttr (el : Xml) (tag attrKey attrVal : String) : List Xml :=
  el.descendants.filter (fun c => c.tag = tag ∧ c.get attrKey = some attrVal)

/-- `el.findall(tag1 + "/" + tag2)`: grandchildren reached through a child
with `tag1`, in document order. -/
def Xml.findallPath2 (el : Xml) (tag1 tag2 : String) : List Xml :=
  (el.findall tag1).flatMap (fun c => c.findall tag2)

/-- The value tree built by `_element_to_json`'s `element_to_dict` before
`json.dumps` renders it.  `json.dumps` is injective on these trees, so
equality of `JsonValue`s models equality of the serialized strings. -/
inductive JsonValue where
  | str (s : String)
  | obj (fields : List (String × JsonValue))
  | arr (xs : List JsonValue)

/-- `etree.QName(el).localname`: strip the `\x7b...\x7d` namespace prefix. -/
def localname (tag : String) : String :=
  if tag.startsWith "\x7b" then
    ((tag.splitOn "\x7d").drop 1).foldl (fun a b => a ++ b) ""
  else tag

mutual
/-- `element_to_dict` from `_element_to_json`: tag, attributes when present,
stripped text when nonempty, children when present; absent keys omitted. -/
def elementToDict : Xml → JsonValue
  | .elem t a x cs =>
    let base : List (String × JsonValue) := [("tag", .str (localname t))]
    let withAttrs :=
      if a.isEmpty then base
      else base ++ [("attributes", .obj (a.map (fun p => (p.1, JsonValue.str p.2))))]
    let withText :=
      match x with
      | some s => if s.trim = "" then withAttrs else withAttrs ++ [("text", .str s.trim)]
      | none => withAttrs
    let kids := elementToDictAll cs
    .obj (if kids.isEmpty then withText else withText ++ [("children", .arr kids)])

/-- `element_to_dict` mapped over a child list. -/
def elementToDictAll : XmlList → List JsonValue
  | .nil => []
  | .cons c rest => elementToDict c :: elementToDictAll rest
end

/-- `_element_to_json`: `None` for an empty element list, otherwise the JSON
array of the per-element dictionaries. -/
def elementToJson (els : List Xml) : Option JsonValue :=
  let dataList := els.map elementToDict
  if dataList.isEmpty then none else some (.arr dataList)

/-- One row of `proteins.tsv`: the list built in `_parse_entry`, after the
`insert(2, ncbi_taxid)` that places the taxid behind `uniprot_id`.  Field
order matches `TABLE_HEADERS["proteins"]`. -/
structure ProteinRow where
  primary_accession : String
  uniprot_id : Option String
  ncbi_taxid : Option Int
  sequence_length : Option String
  molecular_weight : Option String
  created_date : Option String
  modified_date : Option String
  comments_data : Option JsonValue
  features_data : Option JsonValue
  db_references_data : Option JsonValue
  evidence_data : Option JsonValue

/-- One row of `taxonomy.tsv`. -/
structure TaxRow where
  ncbi_taxid : Int
  scientific_name : Option String
  lineage : String
deriving DecidableEq, Repr

/-- One row of `genes.tsv`. -/
structure GeneRow where
  protein_accession : String
  gene_name : Option String
  isPrimaryGene : Bool
deriving DecidableEq, Repr

/-- One row of `keywords.tsv` (the label may be `None`). -/
structure KeywordRow where
  protein_accession : String
  keyword_id : String
  keyword_label : Option String
deriving DecidableEq, Repr

/-- The `defaultdict(list)` built by `_parse_entry`: one row list per output
table.  Keys never appended to correspond to empty lists. -/
structure ParsedData where
  proteins : List ProteinRow
  sequences : List (String × String)
  accessions : List (String × String)
  taxonomy : List TaxRow
  genes : List GeneRow
  protein_to_go : List (String × String)
  keywords : List KeywordRow

/-- The inner `<name>` walk of the gene loop in `_parse_entry`: threads the
per-`<gene>` `is_primary` flag, which is cleared by the first
`type="primary"` name; `synonym` and `ordered locus` are non-primary; other
types yield no row. -/
def geneRowsOfNames (acc : String) : Bool → List Xml → List GeneRow
  | _, [] => []
  | isPrimary, nameElem :: rest =>
    let geneName := nameElem.text
    match nameElem.get "type" with
    | some "primary" =>
      ⟨acc, geneName, isPrimary⟩ :: geneRowsOfNames acc false rest
    | some "synonym" =>
      ⟨acc, geneName, false⟩ :: geneRowsOfNames acc isPrimary rest
    | some "ordered locus" =>
      ⟨acc, geneName, false⟩ :: geneRowsOfNames acc isPrimary rest
    | _ => geneRowsOfNames acc isPrimary rest

/-- The gene loop of `_parse_entry`: `is_primary` is re-initialised to
`True` for every `<gene>` element. -/
def parseGenes (acc : String) (geneElems : List Xml) : List GeneRow :=
  geneElems.flatMap (fun g => geneRowsOfNames acc true (g.findall (getTag "name")))

/-- Truthy text of an element (`t.text` used as a filter in Python). -/
def truthyText (el : Xml) : Option String :=
  match el.text with
  | some s => if s ≠ "" then some s else none
  | none => none

/-- The taxonomy block of `_parse_entry`.  Returns the `ncbi_taxid` that is
spliced into the protein row and the (at most one) taxonomy row.  `int()`
on a malformed id raises `ValueError`, which `_parse_entry` does not catch. -/
def parseTaxonomy (org? : Option Xml) : Except PyErr (Option Int × List TaxRow) :=
  match org? with
  | none => .ok (none, [])
  | some org =>
    match (org.findallDescAttr (getTag "dbReference") "type" "NCBI Taxonomy").head? with
    | none => .ok (none, [])
    | some dbRef =>
      match dbRef.get "id" with
      | none => .ok (none, [])
      | some idStr =>
        if idStr = "" then .ok (none, [])
        else
          match pyInt? idStr with
          | none => .error (.valueError ("invalid literal for int() with base 10: " ++ idStr))
          | some taxid =>
            let scientificName := org.findtext (getTag "name")
            let lineageList :=
              (org.findallPath2 (getTag "lineage") (getTag "taxon")).filterMap truthyText
            .ok (some taxid, [⟨taxid, scientificName, String.intercalate " > " lineageList⟩])

/-- The two profile-dependent comment/feature/reference/evidence blobs of
`_parse_entry`. -/
def parseBlobs (elem : Xml) (profile : String) :
    Option JsonValue × Option JsonValue × Option JsonValue × Option JsonValue :=
  if profile = "full" then
    let commentsData := elementToJson (elem.findall (getTag "comment"))
    let featuresData := elementToJson (elem.findall (getTag "feature"))
    let dbRefsData := elementToJson
      ((elem.findall (getTag "dbReference")).filter
        (fun d => d.get "type" ≠ some "GO" ∧ d.get "type" ≠ some "NCBI Taxonomy"))
    let evidenceData := elementToJson (elem.findallDesc (getTag "evidence"))
    (commentsData, featuresData, dbRefsData, evidenceData)
  else
    let standardComments := (elem.findall (getTag "comment")).filter
      (fun c => c.get "type" = some "function" ∨ c.get "type" = some "disease" ∨
                c.get "type" = some "subcellular location")
    (elementToJson standardComments, none, none, none)

/-- `_parse_entry`: parse one `<entry>` element into the per-table row
dictionary.  `.ok none` models the `return {}` taken when the entry has no
truthy primary accession; `.error` models an uncaught `ValueError` from
`int()`. -/
def parseEntry (elem : Xml) (profile : String) : Except PyErr (Option ParsedData) :=
  let primaryAccession? := elem.findtext (getTag "accession")
  if pyTruthy primaryAccession? then
    let acc := primaryAccession?.getD ""
    let uniprotId := elem.findtext (getTag "name")
    let seqElem? := elem.find (getTag "sequence")
    let sequenceLength := seqElem?.bind (fun se => se.get "length")
    let molecularWeight := seqElem?.bind (fun se => se.get "mass")
    let sequence : Option String :=
      match seqElem? with
      | some se =>
        match truthyText se with
        | some t => some (t.replace "\n" "")
        | none => none
      | none => none
    let createdDate := elem.get "created"
    let modifiedDate := elem.get "modified"
    let (commentsData, featuresData, dbRefsData, evidenceData) := parseBlobs elem profile
    match parseTaxonomy (elem.find (getTag "organism")) with
    | .error e => .error e
    | .ok (ncbiTaxid, taxRows) =>
      .ok (some {
        proteins := [⟨acc, uniprotId, ncbiTaxid, sequenceLength, molecularWeight,
                      createdDate, modifiedDate, commentsData, featuresData,
                      dbRefsData, evidenceData⟩]
        sequences :=
          match sequence with
          | some s => if s ≠ "" then [(acc, s)] else []
          | none => []
        accessions :=
          ((elem.findall (getTag "accession")).drop 1).filterMap
            (fun a => (truthyText a).map (fun t => (acc, t)))
        taxonomy := taxRows
        genes := parseGenes acc (elem.findall (getTag "gene"))
        protein_to_go :=
          (elem.findallDescAttr (getTag "dbReference") "type" "GO").filterMap
            (fun g => match g.get "id" with
                      | some i => if i ≠ "" then some (acc, i) else none
                      | none => none)
        keywords :=
          (elem.findall (getTag "keyword")).filterMap
            (fun k => match k.get "id" with
                      | some i => if i ≠ "" then some (⟨acc, i, k.text⟩ : KeywordRow) else none
                      | none => none) })
  else .ok none

/-- `_worker_parse_entry`, one task: `etree.fromstring` raising
`XMLSyntaxError` (the `.error ()` task) is caught and an empty dict
(`.ok none`) is enqueued; any exception raised by `_parse_entry` itself is
not caught (the `.error` result), killing the worker. -/
def workerParseEntry (task : Except Unit Xml) (profile : String) :
    Except PyErr (Option ParsedData) :=
  match task with
  | .error _ => .ok none
  | .ok elem => parseEntry elem profile

/-- `TABLE_HEADERS` from transformer.py: table name → declared column order. -/
def TABLE_HEADERS : List (String × List String) := [
  ("proteins",
    ["primary_accession", "uniprot_id", "ncbi_taxid", "sequence_length",
     "molecular_weight", "created_date", "modified_date", "comments_data",
     "features_data", "db_references_data", "evidence_data"]),
  ("sequences", ["primary_accession", "sequence"]),
  ("accessions", ["protein_accession", "secondary_accession"]),
  ("taxonomy", ["ncbi_taxid", "scientific_name", "lineage"]),
  ("genes", ["protein_accession", "gene_name", "is_primary"]),
  ("protein_to_go", ["protein_accession", "go_term_id"]),
  ("keywords", ["protein_accession", "keyword_id", "keyword_label"])]

/-- Data rows accumulated per output table by the writer. -/
structure TableRows where
  proteins : List ProteinRow := []
  sequences : List (String × String) := []
  accessions : List (String × String) := []
  taxonomy : List TaxRow := []
  genes : List GeneRow := []
  protein_to_go : List (String × String) := []
  keywords : List KeywordRow := []

/-- The writer's state: the `seen_taxonomy_ids` set (only membership is
read, so a list) and the rows written so far. -/
structure WriterSt where
  seen_taxonomy_ids : List Int := []
  rows : TableRows := {}

/-- The taxonomy de-duplication loop inside `_writer_process`: keep a row
only when its taxid has not been seen, recording newly seen taxids. -/
def dedupTaxAux (seen : List Int) : List TaxRow → List Int × List TaxRow
  | [] => (seen, [])
  | r :: rest =>
    if r.ncbi_taxid ∈ seen then dedupTaxAux seen rest
    else
      let step := dedupTaxAux (r.ncbi_taxid :: seen) rest
      (step.1, r :: step.2)

/-- One iteration of the `_writer_process` main loop: an empty dict (from a
worker-side parse error or an accession-less entry) is skipped; otherwise
every table's rows are appended, taxonomy after de-duplication.  The writer
keeps no record of primary accessions and has no error path. -/
def writerStep (st : WriterSt) (parsed? : Option ParsedData) : WriterSt :=
  match parsed? with
  | none => st
  | some d =>
    let dedup := dedupTaxAux st.seen_taxonomy_ids d.taxonomy
    { seen_taxonomy_ids := dedup.1
      rows := {
        proteins := st.rows.proteins ++ d.proteins
        sequences := st.rows.sequences ++ d.sequences
        accessions := st.rows.accessions ++ d.accessions
        taxonomy := st.rows.taxonomy ++ dedup.2
        genes := st.rows.genes ++ d.genes
        protein_to_go := st.rows.protein_to_go ++ d.protein_to_go
        keywords := st.rows.keywords ++ d.keywords } }

/-- `_writer_process` over the queue contents in arrival order.  Scheduling
decides the arrival order; theorems about other schedules quantify over
permutations of this list. -/
def writerProcess (results : List (Option ParsedData)) : WriterSt :=
  results.foldl writerStep {}

/-- Minimal `json.dumps` string escaping (Python additionally `\u`-escapes
control and non-ASCII characters; no claim depends on the rendered text). -/
def jsonEscape (s : String) : String :=
  s.foldl (fun acc c =>
    acc ++ (if c = '"' then "\\\"" else if c = '\\' then "\\\\"
            else if c = '\n' then "\\n" else if c = '\t' then "\\t"
            else if c = '\r' then "\\r" else String.singleton c)) ""

/-- `json.dumps` with CPython's default separators. -/
def jsonDumps : JsonValue → String
  | .str s => "\"" ++ jsonEscape s ++ "\""
  | .obj fields =>
    "\x7b" ++ String.intercalate ", "
      (fields.attach.map (fun f => "\"" ++ jsonEscape f.1.1 ++ "\": " ++ jsonDumps f.1.2))
      ++ "\x7d"
  | .arr xs =>
    "[" ++ String.intercalate ", " (xs.attach.map (fun x => jsonDumps x.1)) ++ "]"
decreasing_by
  · simp_wf
    have h1 := List.sizeOf_lt_of_mem f.2
    have h2 : sizeOf (↑f : String × JsonValue).2 < sizeOf (↑f : String × JsonValue) := by
      obtain ⟨⟨k, v⟩, hf⟩ := f
      simp
    omega
  · simp_wf
    have h1 := List.sizeOf_lt_of_mem x.2
    omega

/-- `csv.writer` cell rendering: `None` becomes the empty field, booleans
render as `True`/`False`, integers in decimal. -/
def renderOptStr (o : Option String) : String := o.getD ""

def renderOptInt : Option Int → String
  | none => ""
  | some i => toString i

def renderBool (b : Bool) : String := if b then "True" else "False"

def renderOptJson : Option JsonValue → String
  | none => ""
  | some j => jsonDumps j

def renderProteinRow (r : ProteinRow) : List String :=
  [r.primary_accession, renderOptStr r.uniprot_id, renderOptInt r.ncbi_taxid,
   renderOptStr r.sequence_length, renderOptStr r.molecular_weight,
   renderOptStr r.created_date, renderOptStr r.modified_date,
   renderOptJson r.comments_data, renderOptJson r.features_data,
   renderOptJson r.db_references_data, renderOptJson r.evidence_data]

def renderTaxRow (r : TaxRow) : List String :=
  [toString r.ncbi_taxid, renderOptStr r.scientific_name, r.lineage]

def renderGeneRow (r : GeneRow) : List String :=
  [r.protein_accession, renderOptStr r.gene_name, renderBool r.isPrimaryGene]

def renderKeywordRow (r : KeywordRow) : List String :=
  [r.protein_accession, r.keyword_id, renderOptStr r.keyword_label]

def renderPair (p : String × String) : List String := [p.1, p.2]

/-- The rendered data lines of one table. -/
def tableLines (st : WriterSt) : String → List (List String)
  | "proteins" => st.rows.proteins.map renderProteinRow
  | "sequences" => st.rows.sequences.map renderPair
  | "accessions" => st.rows.accessions.map renderPair
  | "taxonomy" => st.rows.taxonomy.map renderTaxRow
  | "genes" => st.rows.genes.map renderGeneRow
  | "protein_to_go" => st.rows.protein_to_go.map renderPair
  | "keywords" => st.rows.keywords.map renderKeywordRow
  | _ => []

/-- `FileWriterManager` composed with the writer: for every entry of
`TABLE_HEADERS` one file `<table>.tsv.gz` whose first line is the declared
header, followed by the data lines the writer appended. -/
def filesOf (st : WriterSt) : List (String × List (List String)) :=
  TABLE_HEADERS.map (fun th => (th.1 ++ ".tsv.gz", th.2 :: tableLines st th.1))

/-- `transform_xml_to_tsv`: with zero entries the function prints a warning
and returns before `FileWriterManager` ever runs, so no file is written
(`.ok none`); otherwise the worker results are written in arrival order
(given here as task order, the deterministic single-worker schedule). -/
def transform_xml_to_tsv (entries : List (Except Unit Xml)) (profile : String) :
    Except PyErr (Option WriterSt) :=
  if entries.length = 0 then .ok none
  else
    match entries.mapM (fun t => workerParseEntry t profile) with
    | .error e => .error e
    | .ok results => .ok (some (writerProcess results))

/-- Non-key columns of the `proteins` table (JSON columns as their
serialized text), in `TABLE_HEADERS` order. -/
structure ProteinCols where
  uniprot_id : Option String
  ncbi_taxid : Option Int
  sequence_length : Option String
  molecular_weight : Option String
  created_date : Option String
  modified_date : Option String
  comments_data : Option String
  features_data : Option String
  db_references_data : Option String
  evidence_data : Option String
deriving DecidableEq, Repr

/-- Non-key columns of the `taxonomy` table. -/
structure TaxCols where
  scientific_name : Option String
  lineage : Option String
deriving DecidableEq, Repr

/-- Replace the first row keyed `k` by the merge of the old row with `v`
(the `DO UPDATE` arm of an upsert). -/
def updateRow {κ α : Type} [DecidableEq κ] (merge : α → α → α) (k : κ) (v : α) :
    List (κ × α) → List (κ × α)
  | [] => []
  | kv :: rest =>
    if kv.1 = k then (kv.1, merge kv.2 v) :: rest else kv :: updateRow merge k v rest

/-- One row of `INSERT ... ON CONFLICT (pk) DO UPDATE SET ...`. -/
def upsertRow {κ α : Type} [DecidableEq κ] (merge : α → α → α)
    (tbl : List (κ × α)) (kv : κ × α) : List (κ × α) :=
  if kv.1 ∈ tbl.map Prod.fst then updateRow merge kv.1 kv.2 tbl else tbl ++ [kv]

/-- `INSERT INTO production SELECT * FROM staging ON CONFLICT (pk) DO UPDATE
SET ...`: upsert every staging row into the production table. -/
def upsertTable {κ α : Type} [DecidableEq κ] (merge : α → α → α)
    (prod staging : List (κ × α)) : List (κ × α) :=
  staging.foldl (upsertRow merge) prod

/-- The `DO UPDATE SET` list of `_upsert_proteins`: `uniprot_id`,
`sequence_length`, `molecular_weight`, `modified_date` and the four JSON
columns are overwritten; `ncbi_taxid` and `created_date` are not listed and
keep the production values. -/
def mergeProteins (old new : ProteinCols) : ProteinCols :=
  { old with
    uniprot_id := new.uniprot_id
    sequence_length := new.sequence_length
    molecular_weight := new.molecular_weight
    modified_date := new.modified_date
    comments_data := new.comments_data
    features_data := new.features_data
    db_references_data := new.db_references_data
    evidence_data := new.evidence_data }

/-- `_upsert_proteins`, keyed by `primary_accession`. -/
def upsertProteins (prod staging : List (String × ProteinCols)) :
    List (String × ProteinCols) :=
  upsertTable mergeProteins prod staging

/-- The `DO UPDATE SET` of `_upsert_sequences`: `sequence = EXCLUDED.sequence`
overwrites the only non-key column. -/
def mergeSequences (_old new : String) : String := new

/-- `_upsert_sequences`, keyed by `primary_accession`. -/
def upsertSequences (prod staging : List (String × String)) : List (String × String) :=
  upsertTable mergeSequences prod staging

/-- The `DO UPDATE SET` of `_upsert_taxonomy`: `scientific_name` and
`lineage` — every non-key column — are overwritten. -/
def mergeTaxonomy (old new : TaxCols) : TaxCols :=
  { old with scientific_name := new.scientific_name, lineage := new.lineage }

/-- `_upsert_taxonomy`, keyed by `ncbi_taxid`. -/
def upsertTaxonomy (prod staging : List (Int × TaxCols)) : List (Int × TaxCols) :=
  upsertTable mergeTaxonomy prod staging

/-- The DELETE of `_sync_child_table`: remove production rows whose
`protein_accession` appears in `staging.proteins` and whose composite key
has no staging counterpart.  `key` maps a row to its composite key, whose
first component is always `protein_accession`. -/
def syncDelete {ρ κ : Type} [DecidableEq ρ] [DecidableEq κ]
    (stagingProteins : List String) (key : ρ → String × κ)
    (prod staging : List ρ) : List ρ :=
  prod.filter (fun r => ¬((key r).1 ∈ stagingProteins ∧ (key r) ∉ staging.map key))

/-- The INSERT of `_sync_child_table`: `ON CONFLICT (pk) DO NOTHING`, one
staging row at a time. -/
def insertIgnore {ρ κ : Type} [DecidableEq κ] (key : ρ → String × κ)
    (tbl staging : List ρ) : List ρ :=
  staging.foldl (fun t s => if key s ∈ t.map key then t else t ++ [s]) tbl

/-- `_sync_child_table`: delete stale rows of staged proteins, then insert
missing staging rows, ignoring key conflicts. -/
def syncChildTable {ρ κ : Type} [DecidableEq ρ] [DecidableEq κ]
    (stagingProteins : List String) (key : ρ → String × κ)
    (prod staging : List ρ) : List ρ :=
  insertIgnore key (syncDelete stagingProteins key prod staging) staging

/-- The SELECT of `_delete_removed_proteins`: production accessions with no
staging counterpart (`LEFT JOIN ... IS NULL`). -/
def findDeletedAccessions (prodAccs stagingAccs : List String) : List String :=
  prodAccs.filter (fun a => a ∉ stagingAccs)

/-- `_delete_removed_proteins` on the production `proteins` table: when the
deleted list is empty the function returns early; otherwise the listed
accessions are deleted. -/
def deleteRemovedProteins (prodProteins : List (String × ProteinCols))
    (stagingAccs : List String) : List (String × ProteinCols) :=
  let deleted := findDeletedAccessions (prodProteins.map Prod.fst) stagingAccs
  if deleted.isEmpty then prodProteins
  else prodProteins.filter (fun r => r.1 ∉ deleted)

/-- Modelled from the spec: the child-table effect of the tombstone DELETE.
The schema DDL (`create_schema.sql`, not under src) declares the child
foreign keys ON DELETE CASCADE (§3 and §6 of the spec; `_delete_removed_proteins`
relies on it in its comment), so deleting a protein removes every child row
bearing its accession. -/
def cascadeChildren {ρ κ : Type} (key : ρ → String × κ) (deleted : List String)
    (child : List ρ) : List ρ :=
  child.filter (fun r => (key r).1 ∉ deleted)

/-- The release metadata consumed by the driver (only `version` matters to
the claims; `release_info.get("version")` may be absent). -/
structure ReleaseInfo where
  version : Option String
deriving DecidableEq, Repr

/-- The outcomes the environment hands each collaborator call of
`PyLoadUniprotPipeline.run` (core.py): each field is the result of the
corresponding step, `.error` meaning that call raised. -/
structure RunEnv where
  getReleaseInfo : Except PyErr ReleaseInfo
  getCurrentReleaseVersion : Except PyErr (Option String)
  initializeSchemaResult : Except PyErr Unit
  transformAndLoadResult : Except PyErr Unit
  deduplicateResult : Except PyErr Unit
  finalizeResult : Except PyErr Unit
  updateMetadataResult : Except PyErr Unit
  logRunDbResult : Except PyErr Unit

/-- Database state tracked by the driver embedding. -/
structure DbState where
  stagingExists : Bool
deriving DecidableEq, Repr

/-- Observable actions of one `run` invocation, in order. -/
inductive Event where
  | schemaInitialized
  | datasetLoaded
  | stagingDeduplicated
  | loadFinalized
  | metadataUpdated
  | historyLogged (status : String)
  | logRunErrorPrinted
  | cleanupInvoked
deriving DecidableEq, Repr

/-- `PostgresAdapter.log_run`: the whole database interaction sits in a
`try`; any exception is caught and printed, so the function always returns
(it produces events, never an `Except`). -/
def log_run (dbResult : Except PyErr Unit) (status : String) : List Event :=
  match dbResult with
  | .ok _ => [.historyLogged status]
  | .error _ => [.logRunErrorPrinted]

/-- Modelled from the spec: `cleanup()` is invoked by core.py's `finally`
block and exercised by the tests, but its definition is not under src.
Per §4.2 operation 8 it drops the staging schema and swallows "does not
exist" errors (test_db_manager_coverage.py::test_cleanup_error also expects
any `psycopg2.Error` to be swallowed), so it always returns, leaving the
staging schema absent. -/
def cleanup (st : DbState) : DbState := { st with stagingExists := false }

/-- How the `try` block of `run` ended without raising. -/
inductive BodyExit where
  | noopReturn
  | completed
deriving DecidableEq, Repr

/-- The `try` block of `PyLoadUniprotPipeline.run` (core.py): validation,
release info, the delta version check (Python truthiness on both versions,
equality then lexicographic `<`), then schema initialization, the dataset
loop (collapsed to one aggregated outcome), staging de-duplication,
finalize (a full-mode finalize renames staging away), metadata update, and
the COMPLETED `log_run`. -/
def runBody (env : RunEnv) (mode dataset : String) (st : DbState) :
    Except PyErr BodyExit × DbState × List Event :=
  if mode ≠ "full" ∧ mode ≠ "delta" then
    (.error (.valueError ("Load mode '" ++ mode ++ "' is not valid. Choose 'full' or 'delta'.")), st, [])
  else if dataset ≠ "swissprot" ∧ dataset ≠ "trembl" ∧ dataset ≠ "all" then
    (.error (.valueError ("Dataset '" ++ dataset ++ "' is not valid.")), st, [])
  else
    match env.getReleaseInfo with
    | .error e => (.error e, st, [])
    | .ok releaseInfo =>
      let check : Except PyErr (Option BodyExit) :=
        if mode = "delta" then
          match env.getCurrentReleaseVersion with
          | .error e => .error e
          | .ok currentDbVersion =>
            if pyTruthy currentDbVersion ∧ pyTruthy releaseInfo.version then
              if currentDbVersion = releaseInfo.version then .ok (some .noopReturn)
              else if releaseInfo.version.getD "" < currentDbVersion.getD "" then
                .error (.valueError "Source data is older than database version.")
              else .ok none
            else .ok none
        else .ok none
      match check with
      | .error e => (.error e, st, [])
      | .ok (some exitNow) => (.ok exitNow, st, [])
      | .ok none =>
        match env.initializeSchemaResult with
        | .error e => (.error e, st, [])
        | .ok _ =>
          let st1 : DbState := { st with stagingExists := true }
          match env.transformAndLoadResult with
          | .error e => (.error e, st1, [.schemaInitialized])
          | .ok _ =>
            match env.deduplicateResult with
            | .error e => (.error e, st1, [.schemaInitialized, .datasetLoaded])
            | .ok _ =>
              match env.finalizeResult with
              | .error e =>
                (.error e, st1, [.schemaInitialized, .datasetLoaded, .stagingDeduplicated])
              | .ok _ =>
                let st2 := if mode = "full" then { st1 with stagingExists := false } else st1
                match env.updateMetadataResult with
                | .error e =>
                  (.error e, st2,
                   [.schemaInitialized, .datasetLoaded, .stagingDeduplicated, .loadFinalized])
                | .ok _ =>
                  (.ok .completed, st2,
                   [.schemaInitialized, .datasetLoaded, .stagingDeduplicated, .loadFinalized,
                    .metadataUpdated] ++ log_run env.logRunDbResult "COMPLETED")

/-- `PyLoadUniprotPipeline.run`: the `try` body, then the `except` clause
(log FAILED with the original error and re-raise), then the `finally`
clause, which always invokes `cleanup()`. -/
def run (env : RunEnv) (mode dataset : String) (st : DbState) :
    Except PyErr Unit × DbState × List Event :=
  let body := runBody env mode dataset st
  let afterExcept : Except PyErr Unit × DbState × List Event :=
    match body.1 with
    | .ok _ => (.ok (), body.2.1, body.2.2)
    | .error e => (.error e, body.2.1, body.2.2 ++ log_run env.logRunDbResult "FAILED")
  (afterExcept.1, cleanup afterExcept.2.1, afterExcept.2.2 ++ [.cleanupInvoked])

/-- `log_run` on a database error only prints: helper characterization. -/
theorem log_run_error_only_prints (e : PyErr) (s : String) :
    log_run (.error e) s = [Event.logRunErrorPrinted] := rfl

/-- C2: on every exit path of `run` — completion, the equal-version no-op
return, and any raised error — the `finally` block invokes `cleanup()`,
which drops the staging schema while swallowing "does not exist" errors,
so afterwards the staging schema no longer exists. -/
theorem C2_cleanup_runs_on_every_exit_path
    (env : RunEnv) (mode dataset : String) (st : DbState) :
    Event.cleanupInvoked ∈ (run env mode dataset st).2.2 ∧
    (run env mode dataset st).2.1 = cleanup (runBody env mode dataset st).2.1 ∧
    ((run env mode dataset st).2.1).stagingExists = false := by
  obtain ⟨res, st2, ev, hb⟩ : ∃ res st2 ev, runBody env mode dataset st = (res, st2, ev) :=
    ⟨_, _, _, rfl⟩
  refine ⟨?_, ?_, rfl⟩
  · unfold run
    rw [hb]
    cases res <;> simp
  · unfold run
    rw [hb]
    cases res <;> simp

/-- The result and final database state of the `try` body do not depend on
the outcome of `log_run`'s database write (helper for C10). -/
theorem runBody_indep_of_logRun (env : RunEnv) (mode dataset : String) (st : DbState)
    (d1 d2 : Except PyErr Unit) :
    (runBody { env with logRunDbResult := d1 } mode dataset st).1
      = (runBody { env with logRunDbResult := d2 } mode dataset st).1 ∧
    (runBody { env with logRunDbResult := d1 } mode dataset st).2.1
      = (runBody { env with logRunDbResult := d2 } mode dataset st).2.1 := by
  unfold runBody
  cases env.getReleaseInfo <;>
    cases env.getCurrentReleaseVersion <;>
      cases env.initializeSchemaResult <;>
        cases env.transformAndLoadResult <;>
          cases env.deduplicateResult <;>
            cases env.finalizeResult <;>
              cases env.updateMetadataResult <;>
                (try simp) <;> (repeat' (split <;> (try simp)))

/-- C10: `log_run` never propagates an exception — every database error
raised while ensuring the production schema or inserting the run-history
row is caught inside it and only printed — so the result of `run` and the
final database state are independent of the `log_run` database outcome: a
history-write failure neither fails a successful run nor replaces the
original error of a failed one. -/
theorem C10_log_run_never_propagates (env : RunEnv) (mode dataset : String) (st : DbState)
    (d1 d2 : Except PyErr Unit) :
    (∀ e s, log_run (.error e) s = [Event.logRunErrorPrinted]) ∧
    (run { env with logRunDbResult := d1 } mode dataset st).1
      = (run { env with logRunDbResult := d2 } mode dataset st).1 ∧
    (run { env with logRunDbResult := d1 } mode dataset st).2.1
      = (run { env with logRunDbResult := d2 } mode dataset st).2.1 := by
  obtain ⟨h1, h2⟩ := runBody_indep_of_logRun env mode dataset st d1 d2
  obtain ⟨r1, s1, e1, hb1⟩ :
      ∃ r s e, runBody { env with logRunDbResult := d1 } mode dataset st = (r, s, e) :=
    ⟨_, _, _, rfl⟩
  obtain ⟨r2, s2, e2, hb2⟩ :
      ∃ r s e, runBody { env with logRunDbResult := d2 } mode dataset st = (r, s, e) :=
    ⟨_, _, _, rfl⟩
  rw [hb1, hb2] at h1 h2
  simp only at h1 h2
  refine ⟨fun e s => rfl, ?_, ?_⟩ <;>
    · unfold run
      rw [hb1, hb2, h1, h2]
      cases r2 <;> simp

/-- Delta run, versions equal: the `try` body returns immediately with no
state change and no events (helper for C7). -/
theorem runBody_delta_equal (env : RunEnv) (dataset : String) (st : DbState)
    (hds : ¬(dataset ≠ "swissprot" ∧ dataset ≠ "trembl" ∧ dataset ≠ "all"))
    (v : String) (hv : v ≠ "")
    (hcur : env.getCurrentReleaseVersion = .ok (some v))
    (hnew : env.getReleaseInfo = .ok ⟨some v⟩) :
    runBody env "delta" dataset st = (.ok .noopReturn, st, []) := by
  unfold runBody
  simp [hds, hnew, hcur, pyTruthy, hv]

/-- Delta run, incoming version lexicographically older: the `try` body
raises `ValueError` before any mutation (helper for C7). -/
theorem runBody_delta_older (env : RunEnv) (dataset : String) (st : DbState)
    (hds : ¬(dataset ≠ "swissprot" ∧ dataset ≠ "trembl" ∧ dataset ≠ "all"))
    (cur v : String) (hcurNe : cur ≠ "") (hvNe : v ≠ "")
    (hcur : env.getCurrentReleaseVersion = .ok (some cur))
    (hnew : env.getReleaseInfo = .ok ⟨some v⟩)
    (hlt : v < cur) :
    runBody env "delta" dataset st
      = (.error (.valueError "Source data is older than database version."), st, []) := by
  have hne : cur ≠ v := fun h => absurd (h ▸ hlt) (lt_irrefl cur)
  unfold runBody
  simp [hds, hnew, hcur, pyTruthy, hcurNe, hvNe, hne, hlt]

/-- Delta run, incoming version strictly newer: schema initialization is
reached (helper for C7). -/
theorem runBody_delta_newer_proceeds (env : RunEnv) (dataset : String) (st : DbState)
    (hds : ¬(dataset ≠ "swissprot" ∧ dataset ≠ "trembl" ∧ dataset ≠ "all"))
    (cur v : String) (hcurNe : cur ≠ "") (hvNe : v ≠ "")
    (hcur : env.getCurrentReleaseVersion = .ok (some cur))
    (hnew : env.getReleaseInfo = .ok ⟨some v⟩)
    (hlt : cur < v) (hinit : env.initializeSchemaResult = .ok ()) :
    Event.schemaInitialized ∈ (runBody env "delta" dataset st).2.2 := by
  have hne : cur ≠ v := ne_of_lt hlt
  have hnlt : ¬(v < cur) := fun h => absurd (lt_trans hlt h) (lt_irrefl cur)
  unfold runBody
  simp [hds, hnew, hcur, pyTruthy, hcurNe, hvNe, hne, hnlt, hinit]
  cases env.transformAndLoadResult <;>
    cases env.deduplicateResult <;>
      cases env.finalizeResult <;>
        cases env.updateMetadataResult <;>
          cases env.logRunDbResult <;> simp [log_run]

/-- Delta run, no current release version recorded: the check is skipped
and schema initialization is reached (helper for C7). -/
theorem runBody_delta_nocurrent_proceeds (env : RunEnv) (dataset : String) (st : DbState)
    (hds : ¬(dataset ≠ "swissprot" ∧ dataset ≠ "trembl" ∧ dataset ≠ "all"))
    (v : String)
    (hcur : env.getCurrentReleaseVersion = .ok none)
    (hnew : env.getReleaseInfo = .ok ⟨some v⟩)
    (hinit : env.initializeSchemaResult = .ok ()) :
    Event.schemaInitialized ∈ (runBody env "delta" dataset st).2.2 := by
  unfold runBody
  simp [hds, hnew, hcur, pyTruthy, hinit]
  cases env.transformAndLoadResult <;>
    cases env.deduplicateResult <;>
      cases env.finalizeResult <;>
        cases env.updateMetadataResult <;>
          cases env.logRunDbResult <;> simp [log_run]

/-- C7: in delta mode, before any database mutation the driver compares the
incoming release version with `get_current_release_version()` using
lexicographic string ordering: equal versions make the run return as a
no-op whose only event is the final cleanup (no schema mutation, no new
`load_history` row); a strictly older incoming version raises a fatal
`ValueError`; a strictly newer incoming version, or the absence of a
current version, lets the load proceed to schema initialization. -/
theorem C7_delta_version_check (env : RunEnv) (dataset : String) (st : DbState)
    (hds : ¬(dataset ≠ "swissprot" ∧ dataset ≠ "trembl" ∧ dataset ≠ "all"))
    (cur v : String) (hcurNe : cur ≠ "") (hvNe : v ≠ "")
    (hcur : env.getCurrentReleaseVersion = .ok (some cur))
    (hnew : env.getReleaseInfo = .ok ⟨some v⟩)
    (hinit : env.initializeSchemaResult = .ok ()) :
    (cur = v →
       (run env "delta" dataset st).1 = .ok () ∧
       (run env "delta" dataset st).2.2 = [Event.cleanupInvoked]) ∧
    (v < cur →
       (run env "delta" dataset st).1
         = .error (.valueError "Source data is older than database version.")) ∧
    (cur < v → Event.schemaInitialized ∈ (run env "delta" dataset st).2.2) ∧
    (∀ env2 : RunEnv,
       env2.getCurrentReleaseVersion = .ok none →
       env2.getReleaseInfo = .ok ⟨some v⟩ →
       env2.initializeSchemaResult = .ok () →
       Event.schemaInitialized ∈ (run env2 "delta" dataset st).2.2) := by
  refine ⟨?_, ?_, ?_, ?_⟩
  · intro heq
    subst heq
    have hb := runBody_delta_equal env dataset st hds cur hcurNe hcur hnew
    unfold run
    rw [hb]
    simp
  · intro hlt
    have hb := runBody_delta_older env dataset st hds cur v hcurNe hvNe hcur hnew hlt
    unfold run
    rw [hb]
  · intro hlt
    have hb := runBody_delta_newer_proceeds env dataset st hds cur v hcurNe hvNe hcur hnew hlt hinit
    obtain ⟨r, s2, ev, hbe⟩ : ∃ r s e, runBody env "delta" dataset st = (r, s, e) :=
      ⟨_, _, _, rfl⟩
    rw [hbe] at hb
    unfold run
    rw [hbe]
    cases r <;> simp_all
  · intro env2 hcur2 hnew2 hinit2
    have hb := runBody_delta_nocurrent_proceeds env2 dataset st hds v hcur2 hnew2 hinit2
    obtain ⟨r, s2, ev, hbe⟩ : ∃ r s e, runBody env2 "delta" dataset st = (r, s, e) :=
      ⟨_, _, _, rfl⟩
    rw [hbe] at hb
    unfold run
    rw [hbe]
    cases r <;> simp_all

/-- A concrete environment for the C7 witness: current release 2025_01,
incoming release 2025_02, all steps succeed. -/
def witEnvC7 : RunEnv where
  getReleaseInfo := .ok ⟨some "2025_02"⟩
  getCurrentReleaseVersion := .ok (some "2025_01")
  initializeSchemaResult := .ok ()
  transformAndLoadResult := .ok ()
  deduplicateResult := .ok ()
  finalizeResult := .ok ()
  updateMetadataResult := .ok ()
  logRunDbResult := .ok ()

/-- Witness for C7 at a concrete input: a strictly newer incoming version
proceeds to schema initialization. -/
theorem C7_delta_version_check_witness :
    Event.schemaInitialized ∈ (run witEnvC7 "delta" "swissprot" ⟨true⟩).2.2 :=
  (C7_delta_version_check witEnvC7 "swissprot" ⟨true⟩ (by decide)
    "2025_01" "2025_02" (by decide) (by decide) rfl rfl rfl).2.2.1
    (by rw [String.lt_iff_toList_lt]; decide)

/-- Observation: the primary-accession column of the proteins rows written
by a completed transformation; `none` when the transformation raised or
wrote no files. -/
def transformedAccessions (entries : List (Except Unit Xml)) (profile : String) :
    Option (List String) :=
  match transform_xml_to_tsv entries profile with
  | .ok (some st) => some (st.rows.proteins.map (fun r => r.primary_accession))
  | _ => none

/-- First entry of the duplicate-accession fixture of
tests/test_transformer.py (accession P12345, name A, sequence M). -/
def dupEntryA : Xml :=
  .elem (getTag "entry") [] none (.ofList
    [.elem (getTag "accession") [] (some "P12345") .nil,
     .elem (getTag "name") [] (some "A") .nil,
     .elem (getTag "sequence") [("length", "1")] (some "M") .nil])

/-- Second entry of the fixture (accession P67890). -/
def dupEntryB : Xml :=
  .elem (getTag "entry") [] none (.ofList
    [.elem (getTag "accession") [] (some "P67890") .nil,
     .elem (getTag "name") [] (some "B") .nil,
     .elem (getTag "sequence") [("length", "1")] (some "M") .nil])

/-- Third entry of the fixture: the same primary accession as the first. -/
def dupEntryC : Xml :=
  .elem (getTag "entry") [] none (.ofList
    [.elem (getTag "accession") [] (some "P12345") .nil,
     .elem (getTag "name") [] (some "C") .nil,
     .elem (getTag "sequence") [("length", "1")] (some "M") .nil])

/-- The duplicate-accession source: P12345, P67890, P12345. -/
def duplicateAccessionTasks : List (Except Unit Xml) :=
  [.ok dupEntryA, .ok dupEntryB, .ok dupEntryC]

/-- C1: evaluation at the failing input.  On a source whose first and third
entries share the primary accession P12345 the transformation completes
without raising and writes both P12345 protein rows: the writer keeps no
set of seen primary accessions and has no fatal-error path, contradicting
the claimed uniqueness enforcement (and
tests/test_transformer.py::test_duplicate_accession_halts_single_threaded_pipeline,
which expects a `ValueError` naming the accession). -/
theorem C1_duplicate_accessions_complete_without_error :
    transformedAccessions duplicateAccessionTasks "full"
      = some ["P12345", "P67890", "P12345"] := rfl

/-- C3: evaluation at the failing input.  A task whose XML does not parse
makes the worker enqueue an empty dict rather than the exception
(`workerParseEntry` returns `.ok none`), and the writer silently skips it:
the transformation of a source holding one well-formed and one malformed
entry completes successfully with only the well-formed entry written —
the failed entry is silently dropped, contradicting the claimed
exception forwarding and pipeline failure (and
tests/test_transformer_coverage.py::test_worker_parse_entry_exception,
which expects the exception object on the results queue). -/
theorem C3_parse_error_is_silently_skipped :
    workerParseEntry (.error ()) "full" = .ok none ∧
    transformedAccessions [.ok dupEntryA, .error ()] "full" = some ["P12345"] :=
  ⟨rfl, rfl⟩

/-- C4 counterexample: with a zero-entry source `transform_xml_to_tsv`
returns before `FileWriterManager` runs, so no `<table>.tsv.gz` file (not
even a header-only one) is written; moreover the declared proteins header
has no recommended-protein-name column. -/
theorem C4_counterexample_zero_entries_write_no_files :
    transform_xml_to_tsv [] "full" = .ok none ∧
    (TABLE_HEADERS.lookup "proteins").getD []
      = ["primary_accession", "uniprot_id", "ncbi_taxid", "sequence_length",
         "molecular_weight", "created_date", "modified_date", "comments_data",
         "features_data", "db_references_data", "evidence_data"] ∧
    "protein_name" ∉ (TABLE_HEADERS.lookup "proteins").getD [] := by
  refine ⟨rfl, rfl, by decide⟩

/-- C4 as amended: for every source with at least one entry whose workers
all succeed, the transformation completes and writes exactly one file
`<table>.tsv.gz` per `TABLE_HEADERS` entry whose first line is the declared
header (the proteins header carrying no protein-name column); a zero-entry
source completes successfully without writing any file. -/
theorem C4_one_header_file_per_table (entries : List (Except Unit Xml)) (profile : String)
    (results : List (Option ParsedData))
    (hne : entries ≠ [])
    (hok : entries.mapM (fun t => workerParseEntry t profile) = .ok results) :
    transform_xml_to_tsv entries profile = .ok (some (writerProcess results)) ∧
    (filesOf (writerProcess results)).map Prod.fst
      = TABLE_HEADERS.map (fun th => th.1 ++ ".tsv.gz") ∧
    (∀ th ∈ TABLE_HEADERS,
       (th.1 ++ ".tsv.gz", th.2 :: tableLines (writerProcess results) th.1)
         ∈ filesOf (writerProcess results)) ∧
    transform_xml_to_tsv [] profile = .ok none := by
  refine ⟨?_, ?_, ?_, rfl⟩
  · unfold transform_xml_to_tsv
    rw [hok]
    simp [hne]
  · simp [filesOf]
  · intro th hth
    exact List.mem_map_of_mem _ hth

/-- A minimal one-entry source for the C4 witness (accession only, no
sequence). -/
def witEntryC4 : Xml :=
  .elem (getTag "entry") [] none
    (.ofList [.elem (getTag "accession") [] (some "W1") .nil])

/-- The parse result of `witEntryC4` under the full profile. -/
def witParsedC4 : ParsedData :=
  { proteins := [⟨"W1", none, none, none, none, none, none, none, none, none, none⟩]
    sequences := []
    accessions := []
    taxonomy := []
    genes := []
    protein_to_go := []
    keywords := [] }

/-- Witness for C4 at a concrete one-entry source. -/
theorem C4_one_header_file_per_table_witness :
    transform_xml_to_tsv [.ok witEntryC4] "full"
      = .ok (some (writerProcess [some witParsedC4])) ∧
    (filesOf (writerProcess [some witParsedC4])).map Prod.fst
      = TABLE_HEADERS.map (fun th => th.1 ++ ".tsv.gz") ∧
    (∀ th ∈ TABLE_HEADERS,
       (th.1 ++ ".tsv.gz", th.2 :: tableLines (writerProcess [some witParsedC4]) th.1)
         ∈ filesOf (writerProcess [some witParsedC4])) ∧
    transform_xml_to_tsv [] "full" = .ok none := by
  have h := C4_one_header_file_per_table [.ok witEntryC4] "full" [some witParsedC4]
    (by simp) (by rfl)
  exact h

/-- Observation: the genes rows emitted for one entry (empty when the entry
is dropped or parsing raised). -/
def parsedGenes (el : Xml) (profile : String) : List GeneRow :=
  match parseEntry el profile with
  | .ok (some d) => d.genes
  | _ => []

/-- An entry with two `<gene>` elements, each holding one primary-typed
name. -/
def twoGeneEntry : Xml :=
  .elem (getTag "entry") [] none (.ofList
    [.elem (getTag "accession") [] (some "P1") .nil,
     .elem (getTag "gene") [] none
       (.ofList [.elem (getTag "name") [("type", "primary")] (some "G1") .nil]),
     .elem (getTag "gene") [] none
       (.ofList [.elem (getTag "name") [("type", "primary")] (some "G2") .nil])])

/-- C8 counterexample: an entry with two `<gene>` elements, each with one
primary-typed name, yields two rows with is_primary true — the
`is_primary` flag is re-initialised per `<gene>` element, not once per
entry, so the emitted rows do not contain exactly one primary row. -/
theorem C8_counterexample_two_primary_rows_per_entry :
    parsedGenes twoGeneEntry "standard"
      = [⟨"P1", some "G1", true⟩, ⟨"P1", some "G2", true⟩] ∧
    ((parsedGenes twoGeneEntry "standard").filter (fun r => r.isPrimaryGene)).length = 2 :=
  ⟨rfl, rfl⟩

/-- With the flag already cleared, the name walk emits no primary row
(helper for C8). -/
theorem geneRowsOfNames_false_all_nonprimary (acc : String) (ns : List Xml) :
    (geneRowsOfNames acc false ns).filter (fun r => r.isPrimaryGene) = [] := by
  induction ns with
  | nil => rfl
  | cons n rest ih =>
    unfold geneRowsOfNames
    split <;> simp [ih]

/-- Whether a `<gene>` element holds at least one primary-typed name. -/
def hasPrimaryName (g : Xml) : Bool :=
  (g.findall (getTag "name")).any (fun n => n.get "type" = some "primary")

/-- C8 as amended: within each `<gene>` element the first primary-typed
name is the one row marked primary (none when the element has no
primary-typed name), and the number of is_primary rows of an entry equals
the number of its `<gene>` elements holding a primary-typed name — one per
such element, not one per entry. -/
theorem C8_first_primary_per_gene_element (acc : String) (geneElems : List Xml) :
    (∀ ns : List Xml,
       (geneRowsOfNames acc true ns).filter (fun r => r.isPrimaryGene)
         = (match ns.find? (fun n => n.get "type" = some "primary") with
            | some n => [(⟨acc, n.text, true⟩ : GeneRow)]
            | none => [])) ∧
    ((parseGenes acc geneElems).filter (fun r => r.isPrimaryGene)).length
      = (geneElems.filter hasPrimaryName).length := by
  have hchar : ∀ ns : List Xml,
      (geneRowsOfNames acc true ns).filter (fun r => r.isPrimaryGene)
        = (match ns.find? (fun n => n.get "type" = some "primary") with
           | some n => [(⟨acc, n.text, true⟩ : GeneRow)]
           | none => []) := by
    intro ns
    induction ns with
    | nil => rfl
    | cons n rest ih =>
      unfold geneRowsOfNames
      split
      · next hty =>
        have hp : (fun n : Xml => decide (n.get "type" = some "primary")) n = true := by
          simp [hty]
        simp [List.find?, hp, geneRowsOfNames_false_all_nonprimary, hty]
      · next hty =>
        have hp : (fun n : Xml => decide (n.get "type" = some "primary")) n = false := by
          simp [hty]
        simp [List.find?, hp, ih]
      · next hty =>
        have hp : (fun n : Xml => decide (n.get "type" = some "primary")) n = false := by
          simp [hty]
        simp [List.find?, hp, ih]
      · next hty1 hty2 hty3 =>
        have hp : (fun n : Xml => decide (n.get "type" = some "primary")) n = false := by
          simp only [decide_eq_false_iff_not]
          exact hty1
        simp [List.find?, hp, ih]
  refine ⟨hchar, ?_⟩
  induction geneElems with
  | nil => rfl
  | cons g rest ih =>
    have hsplit : parseGenes acc (g :: rest)
        = geneRowsOfNames acc true (g.findall (getTag "name")) ++ parseGenes acc rest := by
      simp [parseGenes]
    rw [hsplit, List.filter_append, List.length_append, ih, hchar]
    cases hf : (g.findall (getTag "name")).find? (fun n => n.get "type" = some "primary") with
    | none =>
      have hany : hasPrimaryName g = false := by
        simp only [hasPrimaryName]
        rw [List.find?_eq_none] at hf
        simp only [List.any_eq_false]
        intro n hn
        simpa using hf n hn
      simp [hany]
    | some n =>
      have hany : hasPrimaryName g = true := by
        have := List.find?_some hf
        have hmem := List.mem_of_find?_eq_some hf
        simp only [hasPrimaryName, List.any_eq_true]
        exact ⟨n, hmem, this⟩
      simp [hany]
      omega

/-- `SELECT ... WHERE pk = k` over an embedded table: first row with the
key. -/
def lookupRow {κ α : Type} [DecidableEq κ] (k : κ) : List (κ × α) → Option α
  | [] => none
  | kv :: rest => if kv.1 = k then some kv.2 else lookupRow k rest

theorem lookupRow_updateRow_self {κ α : Type} [DecidableEq κ] (merge : α → α → α)
    (k : κ) (v : α) (tbl : List (κ × α)) :
    lookupRow k (updateRow merge k v tbl)
      = match lookupRow k tbl with
        | some old => some (merge old v)
        | none => none := by
  induction tbl with
  | nil => rfl
  | cons kv rest ih =>
    by_cases h : kv.1 = k <;> simp [updateRow, lookupRow, h, ih]

theorem lookupRow_updateRow_other {κ α : Type} [DecidableEq κ] (merge : α → α → α)
    (k k' : κ) (hkk : k' ≠ k) (v : α) (tbl : List (κ × α)) :
    lookupRow k' (updateRow merge k v tbl) = lookupRow k' tbl := by
  induction tbl with
  | nil => rfl
  | cons kv rest ih =>
    by_cases h : kv.1 = k
    · subst h
      simp [updateRow, lookupRow, Ne.symm hkk]
    · simp [updateRow, lookupRow, h, ih]

theorem lookupRow_eq_none_of_not_mem {κ α : Type} [DecidableEq κ] (k : κ)
    (tbl : List (κ × α)) (h : k ∉ tbl.map Prod.fst) :
    lookupRow k tbl = none := by
  induction tbl with
  | nil => rfl
  | cons kv rest ih =>
    simp only [List.map_cons, List.mem_cons, not_or] at h
    have hne : ¬(kv.1 = k) := fun he => h.1 he.symm
    simp [lookupRow, hne, ih h.2]

theorem lookupRow_append_right {κ α : Type} [DecidableEq κ] (k : κ)
    (t1 t2 : List (κ × α)) (h : k ∉ t1.map Prod.fst) :
    lookupRow k (t1 ++ t2) = lookupRow k t2 := by
  induction t1 with
  | nil => rfl
  | cons kv rest ih =>
    simp only [List.map_cons, List.mem_cons, not_or] at h
    have hne : ¬(kv.1 = k) := fun he => h.1 he.symm
    simp [lookupRow, hne, ih h.2]

theorem lookupRow_append_left {κ α : Type} [DecidableEq κ] (k : κ)
    (t1 t2 : List (κ × α)) (h : k ∈ t1.map Prod.fst) :
    lookupRow k (t1 ++ t2) = lookupRow k t1 := by
  induction t1 with
  | nil => simp at h
  | cons kv rest ih =>
    by_cases hk : kv.1 = k
    · simp [lookupRow, hk]
    · simp only [List.map_cons, List.mem_cons] at h
      rcases h with h | h
    
      · exact absurd h.symm hk
      · simp [lookupRow, hk, ih h]

theorem lookupRow_isSome_of_mem {κ α : Type} [DecidableEq κ] (k : κ)
    (tbl : List (κ × α)) (h : k ∈ tbl.map Prod.fst) :
    (lookupRow k tbl).isSome := by
  induction tbl with
  | nil => simp at h
  | cons kv rest ih =>
    by_cases hk : kv.1 = k
    · simp [lookupRow, hk]
    · simp only [List.map_cons, List.mem_cons] at h
      rcases h with h | h
      · exact absurd h.symm hk
      · simp [lookupRow, hk, ih h]

/-- Upserting a row and reading back its key: the `DO UPDATE` merge on
conflict, the inserted value otherwise. -/
theorem lookupRow_upsertRow_self {κ α : Type} [DecidableEq κ] (merge : α → α → α)
    (tbl : List (κ × α)) (k : κ) (v : α) :
    lookupRow k (upsertRow merge tbl (k, v))
      = match lookupRow k tbl with
        | some old => some (merge old v)
        | none => some v := by
  unfold upsertRow
  by_cases hm : k ∈ tbl.map Prod.fst
  · simp only [hm, if_pos]
    rw [lookupRow_updateRow_self]
    cases hl : lookupRow k tbl with
    | none =>
      have hsome := lookupRow_isSome_of_mem k tbl hm
      rw [hl] at hsome
      simp at hsome
    | some old => rfl
  · simp only [hm, if_neg, not_false_iff]
    rw [lookupRow_append_right k tbl _ hm, lookupRow_eq_none_of_not_mem k tbl hm]
    simp [lookupRow]

theorem lookupRow_upsertRow_other {κ α : Type} [DecidableEq κ] (merge : α → α → α)
    (tbl : List (κ × α)) (k k' : κ) (v : α) (h : k' ≠ k) :
    lookupRow k' (upsertRow merge tbl (k, v)) = lookupRow k' tbl := by
  unfold upsertRow
  by_cases hm : k ∈ tbl.map Prod.fst
  · simp only [hm, if_pos]
    exact lookupRow_updateRow_other merge k k' h v tbl
  · simp only [hm, if_neg, not_false_iff]
    by_cases hmem : k' ∈ tbl.map Prod.fst
    · exact lookupRow_append_left k' tbl _ hmem
    · rw [lookupRow_append_right k' tbl _ hmem, lookupRow_eq_none_of_not_mem k' tbl hmem]
      simp only [lookupRow, ite_eq_right_iff]
      exact fun he => absurd he.symm h

/-- Keys untouched by the staging table keep their production row. -/
theorem lookupRow_upsertTable_not_mem {κ α : Type} [DecidableEq κ] (merge : α → α → α)
    (prod staging : List (κ × α)) (k : κ) (h : k ∉ staging.map Prod.fst) :
    lookupRow k (upsertTable merge prod staging) = lookupRow k prod := by
  induction staging generalizing prod with
  | nil => rfl
  | cons kv rest ih =>
    simp only [List.map_cons, List.mem_cons, not_or] at h
    rw [upsertTable, List.foldl_cons, ← upsertTable, ih _ h.2]
    obtain ⟨k1, v1⟩ := kv
    exact lookupRow_upsertRow_other merge prod k1 k v1
      (fun he => h.1 (show k = (k1, v1).1 from he))

/-- A staging row whose key conflicts with production is merged by the
`DO UPDATE` list. -/
theorem lookupRow_upsertTable_conflict {κ α : Type} [DecidableEq κ] (merge : α → α → α)
    (prod staging : List (κ × α)) (k : κ) (old new : α)
    (hnd : (staging.map Prod.fst).Nodup) (hmem : (k, new) ∈ staging)
    (hold : lookupRow k prod = some old) :
    lookupRow k (upsertTable merge prod staging) = some (merge old new) := by
  obtain ⟨s, t, rfl⟩ := List.append_of_mem hmem
  have hmap : ((s.map Prod.fst) ++ (k :: t.map Prod.fst)).Nodup := by simpa using hnd
  obtain ⟨hs, hkt, hdisj⟩ := List.nodup_append.mp hmap
  have hks : k ∉ s.map Prod.fst := fun hk => hdisj hk (by simp)
  have hkt2 : k ∉ t.map Prod.fst := (List.nodup_cons.mp hkt).1
  rw [upsertTable, List.foldl_append, List.foldl_cons]
  have h1 : lookupRow k (List.foldl (upsertRow merge) prod s) = some old := by
    rw [← upsertTable, lookupRow_upsertTable_not_mem merge prod s k hks]
    exact hold
  rw [← upsertTable, lookupRow_upsertTable_not_mem merge _ t k hkt2,
      lookupRow_upsertRow_self, h1]

/-- A production proteins row (for the C5 counterexample). -/
def prodRowC5 : ProteinCols :=
  ⟨some "OLD_ID", some 9606, some "10", some "100", some "2000-01-01",
   some "2001-01-01", none, none, none, none⟩

/-- A conflicting staging proteins row with different `ncbi_taxid` and
`created_date`. -/
def stagRowC5 : ProteinCols :=
  ⟨some "NEW_ID", some 10090, some "11", some "111", some "2020-01-01",
   some "2025-01-01", none, none, none, none⟩

/-- C5 counterexample: after the proteins upsert the conflicting row does
not equal the staging row — its `ncbi_taxid` and `created_date` keep the
production values because `_upsert_proteins`'s `DO UPDATE SET` list omits
them. -/
theorem C5_counterexample_taxid_created_not_overwritten :
    lookupRow "P1" (upsertProteins [("P1", prodRowC5)] [("P1", stagRowC5)])
      = some { stagRowC5 with ncbi_taxid := some 9606, created_date := some "2000-01-01" } ∧
    stagRowC5.ncbi_taxid = some 10090 ∧
    stagRowC5.created_date = some "2020-01-01" ∧
    lookupRow "P1" (upsertProteins [("P1", prodRowC5)] [("P1", stagRowC5)])
      ≠ some stagRowC5 := by
  refine ⟨rfl, rfl, rfl, by decide⟩

/-- C5 as amended: on a primary-key conflict the proteins upsert overwrites
`uniprot_id`, `sequence_length`, `molecular_weight`, `modified_date` and
the four JSON columns with the staging values, while `ncbi_taxid` and
`created_date` retain the production values; the sequences and taxonomy
upserts overwrite all of their non-key columns. -/
theorem C5_upsert_overwrites_listed_columns
    (prodP stagP : List (String × ProteinCols)) (k : String) (old new : ProteinCols)
    (hnd : (stagP.map Prod.fst).Nodup) (hmem : (k, new) ∈ stagP)
    (hold : lookupRow k prodP = some old) :
    (lookupRow k (upsertProteins prodP stagP) = some (mergeProteins old new) ∧
     (mergeProteins old new).uniprot_id = new.uniprot_id ∧
     (mergeProteins old new).sequence_length = new.sequence_length ∧
     (mergeProteins old new).molecular_weight = new.molecular_weight ∧
     (mergeProteins old new).modified_date = new.modified_date ∧
     (mergeProteins old new).comments_data = new.comments_data ∧
     (mergeProteins old new).features_data = new.features_data ∧
     (mergeProteins old new).db_references_data = new.db_references_data ∧
     (mergeProteins old new).evidence_data = new.evidence_data ∧
     (mergeProteins old new).ncbi_taxid = old.ncbi_taxid ∧
     (mergeProteins old new).created_date = old.created_date) ∧
    (∀ (prodS stagS : List (String × String)) (ks olds news : String),
       (stagS.map Prod.fst).Nodup → (ks, news) ∈ stagS → lookupRow ks prodS = some olds →
       lookupRow ks (upsertSequences prodS stagS) = some news) ∧
    (∀ (prodT stagT : List (Int × TaxCols)) (kt : Int) (oldt newt : TaxCols),
       (stagT.map Prod.fst).Nodup → (kt, newt) ∈ stagT → lookupRow kt prodT = some oldt →
       lookupRow kt (upsertTaxonomy prodT stagT) = some newt) := by
  refine ⟨⟨?_, rfl, rfl, rfl, rfl, rfl, rfl, rfl, rfl, rfl, rfl⟩, ?_, ?_⟩
  · exact lookupRow_upsertTable_conflict mergeProteins prodP stagP k old new hnd hmem hold
  · intro prodS stagS ks olds news hnd2 hmem2 hold2
    exact lookupRow_upsertTable_conflict mergeSequences prodS stagS ks olds news hnd2 hmem2 hold2
  · intro prodT stagT kt oldt newt hnd2 hmem2 hold2
    have h := lookupRow_upsertTable_conflict mergeTaxonomy prodT stagT kt oldt newt hnd2 hmem2 hold2
    rw [upsertTaxonomy, h]
    cases newt
    rfl

/-- Witness for C5 at a concrete conflicting row. -/
theorem C5_upsert_overwrites_listed_columns_witness :
    lookupRow "P1" (upsertProteins [("P1", prodRowC5)] [("P1", stagRowC5)])
      = some (mergeProteins prodRowC5 stagRowC5) ∧
    (mergeProteins prodRowC5 stagRowC5).ncbi_taxid = prodRowC5.ncbi_taxid ∧
    (mergeProteins prodRowC5 stagRowC5).created_date = prodRowC5.created_date :=
  ⟨(C5_upsert_overwrites_listed_columns [("P1", prodRowC5)] [("P1", stagRowC5)] "P1"
      prodRowC5 stagRowC5 (by decide) (by simp) rfl).1.1,
   (C5_upsert_overwrites_listed_columns [("P1", prodRowC5)] [("P1", stagRowC5)] "P1"
      prodRowC5 stagRowC5 (by decide) (by simp) rfl).1.2.2.2.2.2.2.2.2.2.1,
   (C5_upsert_overwrites_listed_columns [("P1", prodRowC5)] [("P1", stagRowC5)] "P1"
      prodRowC5 stagRowC5 (by decide) (by simp) rfl).1.2.2.2.2.2.2.2.2.2.2⟩

theorem mem_keys_insertIgnore_of_mem_keys {ρ κ : Type} [DecidableEq κ]
    (key : ρ → String × κ) (tbl staging : List ρ) (k : String × κ)
    (h : k ∈ tbl.map key) : k ∈ (insertIgnore key tbl staging).map key := by
  induction staging generalizing tbl with
  | nil => exact h
  | cons s rest ih =>
    rw [insertIgnore, List.foldl_cons, ← insertIgnore]
    by_cases hs : key s ∈ tbl.map key
    · simp only [hs, if_pos]
      exact ih tbl h
    · simp only [hs, if_neg, not_false_iff]
      exact ih _ (by simp [h])

theorem mem_keys_insertIgnore_of_mem_staging {ρ κ : Type} [DecidableEq κ]
    (key : ρ → String × κ) (tbl staging : List ρ) (s : ρ)
    (h : s ∈ staging) : key s ∈ (insertIgnore key tbl staging).map key := by
  induction staging generalizing tbl with
  | nil => simp at h
  | cons s0 rest ih =>
    rw [insertIgnore, List.foldl_cons, ← insertIgnore]
    rcases List.mem_cons.mp h with h | h
    · subst h
      by_cases hs : key s ∈ tbl.map key
      · simp only [hs, if_pos]
        exact mem_keys_insertIgnore_of_mem_keys key tbl rest _ hs
      · simp only [hs, if_neg, not_false_iff]
        exact mem_keys_insertIgnore_of_mem_keys key _ rest _ (by simp)
    · by_cases hs : key s0 ∈ tbl.map key
      · simp only [hs, if_pos]
        exact ih tbl h
      · simp only [hs, if_neg, not_false_iff]
        exact ih _ h

theorem mem_of_mem_insertIgnore {ρ κ : Type} [DecidableEq κ]
    (key : ρ → String × κ) (tbl staging : List ρ) (r : ρ)
    (h : r ∈ insertIgnore key tbl staging) : r ∈ tbl ∨ r ∈ staging := by
  induction staging generalizing tbl with
  | nil => exact Or.inl h
  | cons s rest ih =>
    rw [insertIgnore, List.foldl_cons, ← insertIgnore] at h
    by_cases hs : key s ∈ tbl.map key
    · simp only [hs, if_pos] at h
      rcases ih tbl h with h | h
      · exact Or.inl h
      · exact Or.inr (List.mem_cons_of_mem s h)
    · simp only [hs, if_neg, not_false_iff] at h
      rcases ih _ h with h | h
      · rcases List.mem_append.mp h with h | h
        · exact Or.inl h
        · simp only [List.mem_singleton] at h
          exact Or.inr (h ▸ List.mem_cons_self s rest)
      · exact Or.inr (List.mem_cons_of_mem s h)

theorem mem_insertIgnore_of_mem {ρ κ : Type} [DecidableEq κ]
    (key : ρ → String × κ) (tbl staging : List ρ) (r : ρ)
    (h : r ∈ tbl) : r ∈ insertIgnore key tbl staging := by
  induction staging generalizing tbl with
  | nil => exact h
  | cons s rest ih =>
    rw [insertIgnore, List.foldl_cons, ← insertIgnore]
    by_cases hs : key s ∈ tbl.map key
    · simp only [hs, if_pos]
      exact ih tbl h
    · simp only [hs, if_neg, not_false_iff]
      exact ih _ (List.mem_append_left _ h)

theorem filter_insertIgnore_of_none {ρ κ : Type} [DecidableEq κ]
    (key : ρ → String × κ) (tbl staging : List ρ) (q : ρ → Bool)
    (h : ∀ s ∈ staging, q s = false) :
    (insertIgnore key tbl staging).filter q = tbl.filter q := by
  induction staging generalizing tbl with
  | nil => rfl
  | cons s rest ih =>
    rw [insertIgnore, List.foldl_cons, ← insertIgnore]
    by_cases hs : key s ∈ tbl.map key
    · simp only [hs, if_pos]
      exact ih tbl (fun x hx => h x (List.mem_cons_of_mem s hx))
    · simp only [hs, if_neg, not_false_iff]
      rw [ih _ (fun x hx => h x (List.mem_cons_of_mem s hx)), List.filter_append]
      simp [h s (List.mem_cons_self s rest)]

theorem mem_syncDelete_iff {ρ κ : Type} [DecidableEq ρ] [DecidableEq κ]
    (sp : List String) (key : ρ → String × κ) (prod staging : List ρ) (r : ρ) :
    r ∈ syncDelete sp key prod staging
      ↔ r ∈ prod ∧ ((key r).1 ∈ sp → key r ∈ staging.map key) := by
  simp only [syncDelete, List.mem_filter, decide_eq_true_eq, not_and, not_not]

/-- The composite key of a genes row in `_sync_child_table`:
`(protein_accession, gene_name)` — `is_primary` is not part of it. -/
def geneKey (r : GeneRow) : String × Option String := (r.protein_accession, r.gene_name)

/-- C6 counterexample: for a protein present in staging, a genes row whose
key (accession, gene_name) already exists in production but whose
`is_primary` differs is neither deleted (its key is in staging) nor
inserted (ON CONFLICT DO NOTHING), so after the sync the production row
set is not the staging row set. -/
theorem C6_counterexample_nonkey_column_not_synced :
    syncChildTable ["P1"] geneKey
        [⟨"P1", some "G1", true⟩] [⟨"P1", some "G1", false⟩]
      = [⟨"P1", some "G1", true⟩] ∧
    (⟨"P1", some "G1", false⟩ : GeneRow) ∉ ([⟨"P1", some "G1", true⟩] : List GeneRow) :=
  ⟨rfl, by decide⟩

/-- C6 as amended: after `_sync_child_table`, for every protein staged, the
production child KEY set equals the staging key set; rows of proteins
absent from staging are untouched; every surviving row originates in
production or staging (so key-conflicting rows keep their production
non-key columns, e.g. `is_primary`, `keyword_label`); when the key
determines the whole row the production row set is exactly staging's for
staged proteins.  The tombstone step then deletes exactly the production
accessions absent from staging, and the (spec-modelled) ON-DELETE CASCADE
removes exactly the child rows bearing a deleted accession. -/
theorem C6_child_sync_and_tombstone {ρ κ : Type} [DecidableEq ρ] [DecidableEq κ]
    (sp : List String) (key : ρ → String × κ) (prod staging : List ρ)
    (hFK : ∀ s ∈ staging, (key s).1 ∈ sp) :
    (∀ kk : String × κ, kk.1 ∈ sp →
       (kk ∈ (syncChildTable sp key prod staging).map key ↔ kk ∈ staging.map key)) ∧
    ((syncChildTable sp key prod staging).filter (fun r => (key r).1 ∉ sp)
       = prod.filter (fun r => (key r).1 ∉ sp)) ∧
    (∀ r ∈ syncChildTable sp key prod staging, r ∈ prod ∨ r ∈ staging) ∧
    ((∀ r1 r2 : ρ, key r1 = key r2 → r1 = r2) →
       ∀ r : ρ, (r ∈ syncChildTable sp key prod staging
         ↔ r ∈ staging ∨ (r ∈ prod ∧ (key r).1 ∉ sp))) ∧
    (∀ (prodProteins : List (String × ProteinCols)) (stagingAccs : List String) (a : String),
       a ∈ (deleteRemovedProteins prodProteins stagingAccs).map Prod.fst
         ↔ (a ∈ prodProteins.map Prod.fst ∧ a ∈ stagingAccs)) ∧
    (∀ (deleted : List String) (child : List ρ) (r : ρ),
       r ∈ cascadeChildren key deleted child ↔ (r ∈ child ∧ (key r).1 ∉ deleted)) := by
  refine ⟨?_, ?_, ?_, ?_, ?_, ?_⟩
  · intro kk hk
    constructor
    · intro hmem
      obtain ⟨r, hr, hkr⟩ := List.mem_map.mp hmem
      rcases mem_of_mem_insertIgnore key _ staging r hr with h | h
      · obtain ⟨hrp, hcond⟩ := (mem_syncDelete_iff sp key prod staging r).mp h
        subst hkr
        exact hcond hk
      · exact hkr ▸ List.mem_map_of_mem key h
    · intro hmem
      obtain ⟨s, hs, hks⟩ := List.mem_map.mp hmem
      exact hks ▸ mem_keys_insertIgnore_of_mem_staging key _ staging s hs
  · have hq : ∀ s ∈ staging, (fun r => decide ((key r).1 ∉ sp)) s = false := by
      intro s hs
      simp [hFK s hs]
    rw [syncChildTable, filter_insertIgnore_of_none key _ staging _ hq, syncDelete,
        List.filter_filter]
    apply List.filter_congr
    intro r hr
    by_cases h : (key r).1 ∈ sp <;> simp [h]
  · intro r hr
    rcases mem_of_mem_insertIgnore key _ staging r hr with h | h
    · exact Or.inl ((mem_syncDelete_iff sp key prod staging r).mp h).1
    · exact Or.inr h
  · intro hdet r
    constructor
    · intro hr
      rcases mem_of_mem_insertIgnore key _ staging r hr with h | h
      · obtain ⟨hrp, hcond⟩ := (mem_syncDelete_iff sp key prod staging r).mp h
        by_cases hsp : (key r).1 ∈ sp
        · obtain ⟨s, hs, hks⟩ := List.mem_map.mp (hcond hsp)
          exact Or.inl ((hdet s r hks) ▸ hs)
        · exact Or.inr ⟨hrp, hsp⟩
      · exact Or.inl h
    · intro hr
      rcases hr with h | ⟨hp, hnsp⟩
      · have hk := mem_keys_insertIgnore_of_mem_staging key
          (syncDelete sp key prod staging) staging r h
        obtain ⟨t, ht, hkt⟩ := List.mem_map.mp hk
        exact (hdet t r hkt) ▸ ht
      · exact mem_insertIgnore_of_mem key _ staging r
          ((mem_syncDelete_iff sp key prod staging r).mpr
            ⟨hp, fun hsp => absurd hsp hnsp⟩)
  · intro prodProteins stagingAccs a
    unfold deleteRemovedProteins findDeletedAccessions
    dsimp only
    split
    · next hempty =>
      rw [List.isEmpty_iff] at hempty
      rw [List.filter_eq_nil_iff] at hempty
      constructor
      · intro ha
        refine ⟨ha, ?_⟩
        have := hempty a ha
        simpa using this
      · exact fun h => h.1
    · next hne =>
      simp only [List.mem_map, List.mem_filter, decide_eq_true_eq, decide_not,
                 Bool.not_eq_true', decide_eq_false_iff_not, not_and, not_not]
      constructor
      · rintro ⟨r, ⟨hrp, hnd⟩, rfl⟩
        exact ⟨⟨r, hrp, rfl⟩, hnd ⟨r, hrp, rfl⟩⟩
      · rintro ⟨⟨r, hrp, rfl⟩, hstag⟩
        exact ⟨r, ⟨hrp, fun _ => hstag⟩, rfl⟩
  · intro deleted child r
    simp [cascadeChildren, List.mem_filter]

/-- Witness for C6 at a concrete genes table. -/
theorem C6_child_sync_and_tombstone_witness :
    (("P1", (some "G2" : Option String))
        ∈ (syncChildTable ["P1"] geneKey [⟨"P1", some "G1", true⟩]
            [⟨"P1", some "G2", false⟩]).map geneKey
      ↔ ("P1", (some "G2" : Option String))
        ∈ ([⟨"P1", some "G2", false⟩] : List GeneRow).map geneKey) :=
  (C6_child_sync_and_tombstone ["P1"] geneKey [⟨"P1", some "G1", true⟩]
    [⟨"P1", some "G2", false⟩] (by decide)).1 ("P1", some "G2") (by decide)

/-- The writer's accumulated rows of one non-taxonomy table are the
concatenation, in arrival order, of the per-entry rows (helper for C9). -/
theorem writer_proj_eq {β : Type} (proj : WriterSt → List β) (pproj : ParsedData → List β)
    (hstep : ∀ st d, proj (writerStep st (some d)) = proj st ++ pproj d)
    (rs : List (Option ParsedData)) (st : WriterSt) :
    proj (rs.foldl writerStep st) = proj st ++ rs.reduceOption.flatMap pproj := by
  induction rs generalizing st with
  | nil => simp
  | cons r rest ih =>
    cases r with
    | none =>
      rw [List.foldl_cons]
      have hnone : writerStep st none = st := rfl
      rw [hnone, ih st]
      simp [List.reduceOption]
    | some d =>
      rw [List.foldl_cons, ih _, hstep]
      simp [List.reduceOption, List.flatMap_cons]

/-- Threading the writer's taxonomy de-duplication over an appended list
(helper for C9). -/
theorem dedupTaxAux_append (seen : List Int) (xs ys : List TaxRow) :
    dedupTaxAux seen (xs ++ ys)
      = ((dedupTaxAux (dedupTaxAux seen xs).1 ys).1,
         (dedupTaxAux seen xs).2 ++ (dedupTaxAux (dedupTaxAux seen xs).1 ys).2) := by
  induction xs generalizing seen with
  | nil => simp [dedupTaxAux]
  | cons r rest ih =>
    by_cases h : r.ncbi_taxid ∈ seen <;> simp [dedupTaxAux, h, ih]

/-- The writer's taxonomy rows and seen-taxid set equal the de-duplication
of the concatenated per-entry taxonomy rows (helper for C9). -/
theorem writer_tax_eq (rs : List (Option ParsedData)) (st : WriterSt) :
    (rs.foldl writerStep st).rows.taxonomy
      = st.rows.taxonomy
        ++ (dedupTaxAux st.seen_taxonomy_ids (rs.reduceOption.flatMap ParsedData.taxonomy)).2 ∧
    (rs.foldl writerStep st).seen_taxonomy_ids
      = (dedupTaxAux st.seen_taxonomy_ids (rs.reduceOption.flatMap ParsedData.taxonomy)).1 := by
  induction rs generalizing st with
  | nil => simp [dedupTaxAux]
  | cons r rest ih =>
    cases r with
    | none =>
      rw [List.foldl_cons]
      have hnone : writerStep st none = st := rfl
      rw [hnone]
      simpa [List.reduceOption] using ih st
    | some d =>
      rw [List.foldl_cons]
      obtain ⟨ih1, ih2⟩ := ih (writerStep st (some d))
      have hrows : (writerStep st (some d)).rows.taxonomy
          = st.rows.taxonomy ++ (dedupTaxAux st.seen_taxonomy_ids d.taxonomy).2 := rfl
      have hseen : (writerStep st (some d)).seen_taxonomy_ids
          = (dedupTaxAux st.seen_taxonomy_ids d.taxonomy).1 := rfl
      rw [ih1, ih2, hrows, hseen]
      constructor
      · simp [List.reduceOption, List.flatMap_cons, dedupTaxAux_append, List.append_assoc]
      · simp [List.reduceOption, List.flatMap_cons, dedupTaxAux_append]

/-- Membership of a taxid among the de-duplicated rows (helper for C9). -/
theorem mem_dedupTax_taxids (seen : List Int) (rows : List TaxRow) (t : Int) :
    t ∈ (dedupTaxAux seen rows).2.map TaxRow.ncbi_taxid
      ↔ t ∈ rows.map TaxRow.ncbi_taxid ∧ t ∉ seen := by
  induction rows generalizing seen with
  | nil => simp [dedupTaxAux]
  | cons r rest ih =>
    by_cases h : r.ncbi_taxid ∈ seen
    · rw [dedupTaxAux]
      simp only [h, if_pos, ih, List.map_cons, List.mem_cons]
      constructor
      · exact fun ⟨hm, hs⟩ => ⟨Or.inr hm, hs⟩
      · rintro ⟨hm | hm, hs⟩
        · exact absurd (hm ▸ h) hs
        · exact ⟨hm, hs⟩
    · rw [dedupTaxAux]
      simp only [h, if_neg, not_false_iff, List.map_cons, List.mem_cons, ih]
      constructor
      · rintro (rfl | ⟨hm, hs⟩)
        · exact ⟨Or.inl rfl, h⟩
        · simp only [List.mem_cons, not_or] at hs
          exact ⟨Or.inr hm, hs.2⟩
      · rintro ⟨rfl | hm, hs⟩
        · exact Or.inl rfl
        · by_cases ht : t = r.ncbi_taxid
          · exact Or.inl ht
          · exact Or.inr ⟨hm, by simp [ht, hs]⟩

/-- Every de-duplicated row is one of the incoming rows (helper for C9). -/
theorem mem_of_mem_dedupTax (seen : List Int) (rows : List TaxRow) (r : TaxRow)
    (h : r ∈ (dedupTaxAux seen rows).2) : r ∈ rows := by
  induction rows generalizing seen with
  | nil => simp [dedupTaxAux] at h
  | cons a rest ih =>
    by_cases ha : a.ncbi_taxid ∈ seen
    · rw [dedupTaxAux] at h
      simp only [ha, if_pos] at h
      exact List.mem_cons_of_mem a (ih _ h)
    · rw [dedupTaxAux] at h
      simp only [ha, if_neg, not_false_iff] at h
      rcases List.mem_cons.mp h with h | h
      · exact h ▸ List.mem_cons_self a rest
      · exact List.mem_cons_of_mem a (ih _ h)

/-- When the taxid determines the row among the incoming rows, a row
survives de-duplication exactly when it occurs and its taxid is unseen
(helper for C9). -/
theorem mem_dedupTax_row_of_det (seen : List Int) (rows : List TaxRow)
    (hdet : ∀ r1 r2 : TaxRow, r1 ∈ rows → r2 ∈ rows →
      r1.ncbi_taxid = r2.ncbi_taxid → r1 = r2) (r : TaxRow) :
    r ∈ (dedupTaxAux seen rows).2 ↔ r ∈ rows ∧ r.ncbi_taxid ∉ seen := by
  induction rows generalizing seen with
  | nil => simp [dedupTaxAux]
  | cons a rest ih =>
    have hdet2 : ∀ r1 r2 : TaxRow, r1 ∈ rest → r2 ∈ rest →
        r1.ncbi_taxid = r2.ncbi_taxid → r1 = r2 :=
      fun r1 r2 h1 h2 => hdet r1 r2 (List.mem_cons_of_mem a h1) (List.mem_cons_of_mem a h2)
    by_cases ha : a.ncbi_taxid ∈ seen
    · rw [dedupTaxAux]
      simp only [ha, if_pos, ih _ hdet2, List.mem_cons]
      constructor
      · exact fun ⟨hm, hs⟩ => ⟨Or.inr hm, hs⟩
      · rintro ⟨rfl | hm, hs⟩
        · exact absurd ha hs
        · exact ⟨hm, hs⟩
    · rw [dedupTaxAux]
      simp only [ha, if_neg, not_false_iff, List.mem_cons, ih _ hdet2]
      constructor
      · rintro (rfl | ⟨hm, hs⟩)
        · exact ⟨Or.inl rfl, ha⟩
        · simp only [List.mem_cons, not_or] at hs
          exact ⟨Or.inr hm, hs.2⟩
      · rintro ⟨rfl | hm, hs⟩
        · exact Or.inl rfl
        · by_cases hr : r.ncbi_taxid = a.ncbi_taxid
          · exact Or.inl (hdet r a (List.mem_cons_of_mem a hm) (List.mem_cons_self a rest) hr)
          · exact Or.inr ⟨hm, by simp [hr, hs]⟩

/-- An entry for accession PA with taxid 9606, scientific name
"Homo sapiens". -/
def taxEntryA : Xml :=
  .elem (getTag "entry") [] none (.ofList
    [.elem (getTag "accession") [] (some "PA") .nil,
     .elem (getTag "organism") [] none (.ofList
       [.elem (getTag "name") [("type", "scientific")] (some "Homo sapiens") .nil,
        .elem (getTag "dbReference") [("type", "NCBI Taxonomy"), ("id", "9606")] none .nil])])

/-- An entry for accession PB with the same taxid 9606 but scientific name
"Homo neanderthalensis". -/
def taxEntryB : Xml :=
  .elem (getTag "entry") [] none (.ofList
    [.elem (getTag "accession") [] (some "PB") .nil,
     .elem (getTag "organism") [] none (.ofList
       [.elem (getTag "name") [("type", "scientific")] (some "Homo neanderthalensis") .nil,
        .elem (getTag "dbReference") [("type", "NCBI Taxonomy"), ("id", "9606")] none .nil])])

/-- The parse result of `taxEntryA`. -/
def taxParsedA : ParsedData :=
  { proteins := [⟨"PA", none, some 9606, none, none, none, none, none, none, none, none⟩]
    sequences := []
    accessions := []
    taxonomy := [⟨9606, some "Homo sapiens", ""⟩]
    genes := []
    protein_to_go := []
    keywords := [] }

/-- The parse result of `taxEntryB`. -/
def taxParsedB : ParsedData :=
  { proteins := [⟨"PB", none, some 9606, none, none, none, none, none, none, none, none⟩]
    sequences := []
    accessions := []
    taxonomy := [⟨9606, some "Homo neanderthalensis", ""⟩]
    genes := []
    protein_to_go := []
    keywords := [] }

/-- C9 counterexample: two entries share taxid 9606 but differ in
scientific name; the writer's first-arrival de-duplication then writes a
different taxonomy row set for the two arrival orders — orders that
different worker counts (1 worker forces source order, 2 workers allow the
swap) can realize — so the set of taxonomy rows is not independent of
`num_workers`. -/
theorem C9_counterexample_taxonomy_rows_depend_on_order :
    parseEntry taxEntryA "standard" = .ok (some taxParsedA) ∧
    parseEntry taxEntryB "standard" = .ok (some taxParsedB) ∧
    (writerProcess [some taxParsedA, some taxParsedB]).rows.taxonomy
      = [⟨9606, some "Homo sapiens", ""⟩] ∧
    (writerProcess [some taxParsedB, some taxParsedA]).rows.taxonomy
      = [⟨9606, some "Homo neanderthalensis", ""⟩] ∧
    (⟨9606, some "Homo sapiens", ""⟩ : TaxRow)
      ∈ (writerProcess [some taxParsedA, some taxParsedB]).rows.taxonomy ∧
    (⟨9606, some "Homo sapiens", ""⟩ : TaxRow)
      ∉ (writerProcess [some taxParsedB, some taxParsedA]).rows.taxonomy := by
  refine ⟨rfl, rfl, rfl, rfl, by decide, by decide⟩

/-- C9 as amended: for any two arrival orders that are permutations of each
other (worker scheduling can only permute arrival), every non-taxonomy
table receives a permutation of the same rows — the same row set; the set
of taxids written to taxonomy is likewise order-invariant; and the
taxonomy row set itself is order-invariant provided all entries sharing a
taxid carry identical taxonomy rows (otherwise it may differ, see the
counterexample). -/
theorem C9_worker_order_invariance (rs1 rs2 : List (Option ParsedData))
    (hp : rs1.Perm rs2) :
    ((writerProcess rs1).rows.proteins).Perm ((writerProcess rs2).rows.proteins) ∧
    ((writerProcess rs1).rows.sequences).Perm ((writerProcess rs2).rows.sequences) ∧
    ((writerProcess rs1).rows.accessions).Perm ((writerProcess rs2).rows.accessions) ∧
    ((writerProcess rs1).rows.genes).Perm ((writerProcess rs2).rows.genes) ∧
    ((writerProcess rs1).rows.protein_to_go).Perm ((writerProcess rs2).rows.protein_to_go) ∧
    ((writerProcess rs1).rows.keywords).Perm ((writerProcess rs2).rows.keywords) ∧
    (((writerProcess rs1).rows.taxonomy).map TaxRow.ncbi_taxid).toFinset
      = (((writerProcess rs2).rows.taxonomy).map TaxRow.ncbi_taxid).toFinset ∧
    ((∀ r1 r2 : TaxRow, r1 ∈ rs1.reduceOption.flatMap ParsedData.taxonomy →
        r2 ∈ rs1.reduceOption.flatMap ParsedData.taxonomy →
        r1.ncbi_taxid = r2.ncbi_taxid → r1 = r2) →
      ((writerProcess rs1).rows.taxonomy).toFinset
        = ((writerProcess rs2).rows.taxonomy).toFinset) := by
  have hro : rs1.reduceOption.Perm rs2.reduceOption := hp.filterMap id
  have hall : (rs1.reduceOption.flatMap ParsedData.taxonomy).Perm
      (rs2.reduceOption.flatMap ParsedData.taxonomy) := hro.flatMap_right _
  have hT : ∀ rs : List (Option ParsedData),
      (writerProcess rs).rows.taxonomy
        = (dedupTaxAux [] (rs.reduceOption.flatMap ParsedData.taxonomy)).2 := by
    intro rs
    have h := (writer_tax_eq rs {}).1
    simpa using h
  refine ⟨?_, ?_, ?_, ?_, ?_, ?_, ?_, ?_⟩
  · simp only [writerProcess]
    rw [writer_proj_eq (fun st => st.rows.proteins) ParsedData.proteins (fun st d => rfl) rs1 {},
        writer_proj_eq (fun st => st.rows.proteins) ParsedData.proteins (fun st d => rfl) rs2 {}]
    exact (hro.flatMap_right _).append_left _
  · simp only [writerProcess]
    rw [writer_proj_eq (fun st => st.rows.sequences) ParsedData.sequences (fun st d => rfl) rs1 {},
        writer_proj_eq (fun st => st.rows.sequences) ParsedData.sequences (fun st d => rfl) rs2 {}]
    exact (hro.flatMap_right _).append_left _
  · simp only [writerProcess]
    rw [writer_proj_eq (fun st => st.rows.accessions) ParsedData.accessions (fun st d => rfl) rs1 {},
        writer_proj_eq (fun st => st.rows.accessions) ParsedData.accessions (fun st d => rfl) rs2 {}]
    exact (hro.flatMap_right _).append_left _
  · simp only [writerProcess]
    rw [writer_proj_eq (fun st => st.rows.genes) ParsedData.genes (fun st d => rfl) rs1 {},
        writer_proj_eq (fun st => st.rows.genes) ParsedData.genes (fun st d => rfl) rs2 {}]
    exact (hro.flatMap_right _).append_left _
  · simp only [writerProcess]
    rw [writer_proj_eq (fun st => st.rows.protein_to_go) ParsedData.protein_to_go (fun st d => rfl) rs1 {},
        writer_proj_eq (fun st => st.rows.protein_to_go) ParsedData.protein_to_go (fun st d => rfl) rs2 {}]
    exact (hro.flatMap_right _).append_left _
  · simp only [writerProcess]
    rw [writer_proj_eq (fun st => st.rows.keywords) ParsedData.keywords (fun st d => rfl) rs1 {},
        writer_proj_eq (fun st => st.rows.keywords) ParsedData.keywords (fun st d => rfl) rs2 {}]
    exact (hro.flatMap_right _).append_left _
  · ext t
    simp only [List.mem_toFinset, hT, mem_dedupTax_taxids, List.not_mem_nil,
               not_false_iff, and_true]
    exact (hall.map _).mem_iff
  · intro hdet
    have hdet2 : ∀ r1 r2 : TaxRow, r1 ∈ rs2.reduceOption.flatMap ParsedData.taxonomy →
        r2 ∈ rs2.reduceOption.flatMap ParsedData.taxonomy →
        r1.ncbi_taxid = r2.ncbi_taxid → r1 = r2 :=
      fun r1 r2 h1 h2 => hdet r1 r2 (hall.mem_iff.mpr h1) (hall.mem_iff.mpr h2)
    ext r
    simp only [List.mem_toFinset, hT]
    rw [mem_dedupTax_row_of_det [] _ hdet r, mem_dedupTax_row_of_det [] _ hdet2 r]
    simp [hall.mem_iff]

/-- Witness for C9 at a concrete pair of arrival orders (a swap). -/
theorem C9_worker_order_invariance_witness :
    (((writerProcess [some taxParsedA, none]).rows.taxonomy).map TaxRow.ncbi_taxid).toFinset
      = (((writerProcess [none, some taxParsedA]).rows.taxonomy).map TaxRow.ncbi_taxid).toFinset ∧
    ((writerProcess [some taxParsedA, none]).rows.proteins).Perm
      ((writerProcess [none, some taxParsedA]).rows.proteins) :=
  ⟨(C9_worker_order_invariance [some taxParsedA, none] [none, some taxParsedA]
      (List.Perm.swap none (some taxParsedA) [])).2.2.2.2.2.2.1,
   (C9_worker_order_invariance [some taxParsedA, none] [none, some taxParsedA]
      (List.Perm.swap none (some taxParsedA) [])).1⟩
